import Mathlib

/-!
Shallow embedding of the real-time match-coordination layer of the
Transcendence chat-service WebSocket handler
(`services/chat-service/src/routes/messages.ts`, second document: the
`wsHandler` plugin and its module-level helpers).

The mutable module-level maps (`clients`, `activeInvites`, `activeGames`)
become fields of an explicit `ServerState`; every socket write performed
through `sendToUser` is recorded as a `Sent` value (one per live handle,
mirroring the per-handle loop in the source).  The opaque ids produced by
`generateId()` and by the database autoincrement are modelled as counters
(`nextId`, `nextDbId`) so that freshness is explicit.  The `setTimeout`
expiry callback of `handleGameInvite` becomes a scheduled entry in
`timers` that is consumed by a dedicated `inviteTimerFire` event; the
awaited persistence calls (`prisma.game.create` / `prisma.game.update`)
are modelled through the `db` field, with a `gatewayOk` flag on the
accept path for the case in which `prisma.game.create` throws (in which
case the handler aborts at the `await` and the socket-level `catch`
swallows the exception, so no further effect happens).
-/

namespace Transcendence

/-- Numeric user id carried by the verified JWT payload. -/
abbrev UserId := Nat

/-- One live WebSocket handle of a user (a user may have several). -/
abbrev ConnId := Nat

/-- Opaque invite id produced by `generateId()`. -/
abbrev InviteId := Nat

/-- Opaque session id produced by `generateId()`. -/
abbrev GameId := Nat

/-- Value type of the `activeInvites` map in the source. -/
structure Invite where
  id : InviteId
  fromUserId : UserId
  fromUsername : String
  toUserId : UserId
  createdAt : Nat
  deriving DecidableEq

/-- Value type of the `activeGames` map in the source. -/
structure GameSession where
  id : GameId
  hostId : UserId
  guestId : UserId
  dbGameId : Option Nat
  deriving DecidableEq

/-- Persisted `game` row created by `prisma.game.create` and updated by
`prisma.game.update` in `handleGameEnd`. -/
structure DbGame where
  id : Nat
  player1Id : UserId
  player2Id : UserId
  gameMode : String
  player1Score : Option Int
  player2Score : Option Int
  winnerId : Option UserId
  deriving DecidableEq

/-- Outbound envelopes written by the handler, one constructor per
`type` value appearing in the source. -/
inductive Envelope where
  | gameInvite (inviteId : InviteId) (fromUserId : UserId) (fromUsername : String) (createdAt : Nat)
  | gameInviteSent (inviteId : InviteId) (toUserId : UserId)
  | gameInviteError (error : String)
  | gameInviteAccepted (gameId : GameId) (dbGameId : Nat) (opponentId : UserId) (isHost : Bool)
  | gameInviteDeclined (inviteId : InviteId)
  | gameInviteExpired (inviteId : InviteId)
  | gamePaddleUpdate (gameId : GameId) (paddleY : Int)
  | gameState (gameId : GameId) (state : String)
  | gameEnded (gameId : GameId) (winnerId : UserId) (leftScore : Int) (rightScore : Int)
  deriving DecidableEq

/-- One `client.send` performed by `sendToUser`: envelope `env` written to
handle `conn` of user `user`. -/
structure Sent where
  user : UserId
  conn : ConnId
  env : Envelope
  deriving DecidableEq

/-- The `clients` map: user id to the set of live socket handles. -/
abbrev Clients := List (UserId × List ConnId)

/-- `Map.get` on an association list with Nat keys. -/
def findVal {β : Type} (l : List (Nat × β)) (k : Nat) : Option β :=
  match l with
  | [] => none
  | (a, b) :: t => if a = k then some b else findVal t k

/-- `Map.delete` on an association list with Nat keys. -/
def eraseKey {β : Type} (l : List (Nat × β)) (k : Nat) : List (Nat × β) :=
  match l with
  | [] => []
  | (a, b) :: t => if a = k then eraseKey t k else (a, b) :: eraseKey t k

/-- `Map.set` for a key already present. -/
def setVal {β : Type} (l : List (Nat × β)) (k : Nat) (v : β) : List (Nat × β) :=
  match l with
  | [] => []
  | (a, b) :: t => if a = k then (a, v) :: t else (a, b) :: setVal t k v

/-- `sendToUser` from the source: serialize once and write to every live
handle of `userId`; a silent no-op when the user has no entry. -/
def sendToUser (cl : Clients) (userId : UserId) (msg : Envelope) : List Sent :=
  match findVal cl userId with
  | some handles => handles.map (fun c => ⟨userId, c, msg⟩)
  | none => []

/-- The module-level mutable state of the WebSocket handler, plus the
id/db counters that stand for `generateId()` and the autoincrement, the
scheduled (not yet fired) expiry timers, and a clock value used for
`createdAt`. -/
structure ServerState where
  clients : Clients
  activeInvites : List (InviteId × Invite)
  activeGames : List (GameId × GameSession)
  timers : List (InviteId × UserId)
  db : List (Nat × DbGame)
  nextId : Nat
  nextDbId : Nat
  now : Nat
  deriving DecidableEq

/-- Registration on connection: add the handle to the user's set,
creating the set if absent (`clients.get(userId)!.add(socket)`). -/
def registerConn (cl : Clients) (u : UserId) (c : ConnId) : Clients :=
  match findVal cl u with
  | some hs => setVal cl u (if c ∈ hs then hs else hs ++ [c])
  | none => cl ++ [(u, [c])]

/-- The `close` handler: remove the handle; delete the user entry when the
set becomes empty. -/
def unregisterConn (cl : Clients) (u : UserId) (c : ConnId) : Clients :=
  match findVal cl u with
  | some hs =>
    let hs' := hs.filter (fun x => x != c)
    if hs' = [] then eraseKey cl u else setVal cl u hs'
  | none => cl

/-- `handleGameInvite` from the source: reject when the target has no
`clients` entry, otherwise store a pending invite, notify both parties
and schedule the 60-second expiry timer. -/
def handleGameInvite (s : ServerState) (fromUserId : UserId) (fromUsername : String)
    (toUserId : UserId) : ServerState × List Sent :=
  match findVal s.clients toUserId with
  | none => (s, sendToUser s.clients fromUserId (Envelope.gameInviteError "User is not online"))
  | some _ =>
    let inviteId := s.nextId
    let invite : Invite := ⟨inviteId, fromUserId, fromUsername, toUserId, s.now⟩
    let s' := { s with
      activeInvites := s.activeInvites ++ [(inviteId, invite)],
      timers := s.timers ++ [(inviteId, fromUserId)],
      nextId := inviteId + 1 }
    (s', sendToUser s.clients toUserId (Envelope.gameInvite inviteId fromUserId fromUsername s.now)
      ++ sendToUser s.clients fromUserId (Envelope.gameInviteSent inviteId toUserId))

/-- `handleInviteAccept` from the source.  `gatewayOk = false` models
`prisma.game.create` throwing at the `await`: the invite has already been
deleted, the exception is swallowed by the message-handler `catch`, and
nothing else happens. -/
def handleInviteAccept (s : ServerState) (acceptingUserId : UserId) (inviteId : InviteId)
    (gatewayOk : Bool) : ServerState × List Sent :=
  match findVal s.activeInvites inviteId with
  | none => (s, sendToUser s.clients acceptingUserId
      (Envelope.gameInviteError "Invite not found or expired"))
  | some invite =>
    if invite.toUserId = acceptingUserId then
      let s1 := { s with activeInvites := eraseKey s.activeInvites inviteId }
      if gatewayOk then
        let dbId := s1.nextDbId
        let s2 := { s1 with
          db := s1.db ++ [(dbId, (⟨dbId, invite.fromUserId, acceptingUserId, "online",
            none, none, none⟩ : DbGame))],
          nextDbId := dbId + 1 }
        let gameId := s2.nextId
        let s3 := { s2 with
          activeGames := s2.activeGames ++
            [(gameId, (⟨gameId, invite.fromUserId, acceptingUserId, some dbId⟩ : GameSession))],
          nextId := gameId + 1 }
        (s3, sendToUser s3.clients invite.fromUserId
            (Envelope.gameInviteAccepted gameId dbId acceptingUserId true)
          ++ sendToUser s3.clients acceptingUserId
            (Envelope.gameInviteAccepted gameId dbId invite.fromUserId false))
      else
        (s1, [])
    else
      (s, sendToUser s.clients acceptingUserId
        (Envelope.gameInviteError "Invite not found or expired"))

/-- `handleInviteDecline` from the source. -/
def handleInviteDecline (s : ServerState) (decliningUserId : UserId) (inviteId : InviteId) :
    ServerState × List Sent :=
  match findVal s.activeInvites inviteId with
  | none => (s, [])
  | some invite =>
    if invite.toUserId = decliningUserId then
      ({ s with activeInvites := eraseKey s.activeInvites inviteId },
        sendToUser s.clients invite.fromUserId (Envelope.gameInviteDeclined inviteId))
    else (s, [])

/-- Body of the `setTimeout` callback scheduled by `handleGameInvite`:
delete the invite only if still present, then notify the inviter. -/
def expireInvite (s : ServerState) (inviteId : InviteId) (fromUserId : UserId) :
    ServerState × List Sent :=
  if (findVal s.activeInvites inviteId).isSome then
    ({ s with activeInvites := eraseKey s.activeInvites inviteId },
      sendToUser s.clients fromUserId (Envelope.gameInviteExpired inviteId))
  else (s, [])

/-- `relayPaddleUpdate` from the source: silent no-op on an unknown id,
otherwise forward to the participant chosen by
`game.hostId === fromUserId ? game.guestId : game.hostId`. -/
def relayPaddleUpdate (s : ServerState) (fromUserId : UserId) (gameId : GameId)
    (paddleY : Int) : ServerState × List Sent :=
  match findVal s.activeGames gameId with
  | none => (s, [])
  | some game =>
    let targetUserId := if game.hostId = fromUserId then game.guestId else game.hostId
    (s, sendToUser s.clients targetUserId (Envelope.gamePaddleUpdate gameId paddleY))

/-- `relayGameState` from the source: only the host may forward state, and
it goes to the guest. -/
def relayGameState (s : ServerState) (fromUserId : UserId) (gameId : GameId)
    (state : String) : ServerState × List Sent :=
  match findVal s.activeGames gameId with
  | none => (s, [])
  | some game =>
    if game.hostId = fromUserId then
      (s, sendToUser s.clients game.guestId (Envelope.gameState gameId state))
    else (s, [])

/-- `prisma.game.update` in `handleGameEnd`: overwrite scores and winner of
the row with id `dbId`. -/
def updateDbGame (db : List (Nat × DbGame)) (dbId : Nat) (l r : Int) (w : UserId) :
    List (Nat × DbGame) :=
  db.map (fun p => if p.1 = dbId then
    (p.1, { p.2 with player1Score := some l, player2Score := some r, winnerId := some w })
    else p)

/-- `handleGameEnd` from the source.  The `if (game.dbGameId)` truthiness
test is false for both `undefined` and `0`. -/
def handleGameEnd (s : ServerState) (fromUserId : UserId) (gameId : GameId)
    (winnerId : UserId) (leftScore rightScore : Int) : ServerState × List Sent :=
  match findVal s.activeGames gameId with
  | none => (s, [])
  | some game =>
    let db' := match game.dbGameId with
      | some dbId => if dbId ≠ 0 then updateDbGame s.db dbId leftScore rightScore winnerId
          else s.db
      | none => s.db
    let endMsg := Envelope.gameEnded gameId winnerId leftScore rightScore
    ({ s with db := db', activeGames := eraseKey s.activeGames gameId },
      sendToUser s.clients game.hostId endMsg ++ sendToUser s.clients game.guestId endMsg)

/-- One externally observable event handled by the single-threaded event
loop: a connection opening or closing, an inbound frame dispatched by the
message router, or a scheduled expiry timer firing. -/
inductive Event where
  | connect (userId : UserId) (connId : ConnId)
  | disconnect (userId : UserId) (connId : ConnId)
  | gameInvite (fromUserId : UserId) (fromUsername : String) (toUserId : UserId)
  | gameInviteAccept (userId : UserId) (inviteId : InviteId) (gatewayOk : Bool)
  | gameInviteDecline (userId : UserId) (inviteId : InviteId)
  | inviteTimerFire (inviteId : InviteId) (fromUserId : UserId)
  | gamePaddleUpdate (userId : UserId) (gameId : GameId) (paddleY : Int)
  | gameState (userId : UserId) (gameId : GameId) (state : String)
  | gameEnd (userId : UserId) (gameId : GameId) (winnerId : UserId) (leftScore rightScore : Int)
  deriving DecidableEq

/-- Dispatch of one event, mirroring the `switch (message.type)` of the
source plus the connection open/close and timer callbacks.  A timer fires
at most once and only if it was scheduled. -/
def step (s : ServerState) (e : Event) : ServerState × List Sent :=
  match e with
  | .connect u c => ({ s with clients := registerConn s.clients u c }, [])
  | .disconnect u c => ({ s with clients := unregisterConn s.clients u c }, [])
  | .gameInvite f fname t => handleGameInvite s f fname t
  | .gameInviteAccept u id ok => handleInviteAccept s u id ok
  | .gameInviteDecline u id => handleInviteDecline s u id
  | .inviteTimerFire id f =>
    if s.timers.contains (id, f) then
      expireInvite { s with timers := s.timers.filter (fun p => p != (id, f)) } id f
    else (s, [])
  | .gamePaddleUpdate u gid y => relayPaddleUpdate s u gid y
  | .gameState u gid st => relayGameState s u gid st
  | .gameEnd u gid w lS rS => handleGameEnd s u gid w lS rS

/-- Run a list of events to completion, collecting every socket write. -/
def run (s : ServerState) : List Event → ServerState × List Sent
  | [] => (s, [])
  | e :: es => ((run (step s e).1 es).1, (step s e).2 ++ (run (step s e).1 es).2)

/-- The state at module load: empty maps, no timers, empty database. -/
def initState : ServerState :=
  { clients := [], activeInvites := [], activeGames := [], timers := [], db := [],
    nextId := 0, nextDbId := 1, now := 0 }

/-- A state the running service can actually be in. -/
def Reachable (s : ServerState) : Prop := ∃ es, s = (run initState es).1

/-! ## Association-list lemmas -/

theorem findVal_cons {β : Type} (q : Nat × β) (t : List (Nat × β)) (k : Nat) :
    findVal (q :: t) k = if q.1 = k then some q.2 else findVal t k := rfl

theorem findVal_mem {β : Type} {l : List (Nat × β)} {k : Nat} {v : β}
    (h : findVal l k = some v) : (k, v) ∈ l := by
  induction l with
  | nil => simp [findVal] at h
  | cons p t ih =>
    obtain ⟨a, b⟩ := p
    simp only [findVal] at h
    split at h
    · next hak =>
      cases h
      subst hak
      exact List.mem_cons_self _ _
    · exact List.mem_cons_of_mem _ (ih h)

theorem findVal_append {β : Type} (l1 l2 : List (Nat × β)) (k : Nat) :
    findVal (l1 ++ l2) k = match findVal l1 k with
      | some v => some v
      | none => findVal l2 k := by
  induction l1 with
  | nil => simp [findVal]
  | cons p t ih =>
    obtain ⟨a, b⟩ := p
    by_cases hak : a = k <;> simp [findVal, hak, ih]

theorem findVal_append_left {β : Type} {l1 : List (Nat × β)} {k : Nat} {v : β}
    (l2 : List (Nat × β)) (h : findVal l1 k = some v) : findVal (l1 ++ l2) k = some v := by
  rw [findVal_append, h]

theorem findVal_append_right {β : Type} {l1 : List (Nat × β)} {k : Nat}
    (l2 : List (Nat × β)) (h : findVal l1 k = none) : findVal (l1 ++ l2) k = findVal l2 k := by
  rw [findVal_append, h]

theorem findVal_eraseKey_self {β : Type} (l : List (Nat × β)) (k : Nat) :
    findVal (eraseKey l k) k = none := by
  induction l with
  | nil => rfl
  | cons p t ih =>
    obtain ⟨a, b⟩ := p
    by_cases hak : a = k <;> simp [eraseKey, hak, findVal, ih]

theorem findVal_eraseKey_ne {β : Type} (l : List (Nat × β)) {k k' : Nat} (h : k' ≠ k) :
    findVal (eraseKey l k) k' = findVal l k' := by
  induction l with
  | nil => rfl
  | cons p t ih =>
    obtain ⟨a, b⟩ := p
    simp only [eraseKey]
    by_cases hak : a = k
    · have hkk' : k ≠ k' := fun hh => h hh.symm
      simp [hak, findVal, hkk', ih]
    · simp [hak, findVal, ih]

theorem mem_eraseKey {β : Type} {l : List (Nat × β)} {k : Nat} {p : Nat × β}
    (h : p ∈ eraseKey l k) : p ∈ l := by
  induction l with
  | nil => simp [eraseKey] at h
  | cons q t ih =>
    obtain ⟨a, b⟩ := q
    simp only [eraseKey] at h
    split at h
    · exact List.mem_cons_of_mem _ (ih h)
    · rcases List.mem_cons.mp h with rfl | hm
      · exact List.mem_cons_self _ _
      · exact List.mem_cons_of_mem _ (ih hm)

theorem findVal_none_of_lt {β : Type} {l : List (Nat × β)} {k : Nat}
    (h : ∀ p ∈ l, p.1 < k) : findVal l k = none := by
  induction l with
  | nil => rfl
  | cons q t ih =>
    obtain ⟨a, b⟩ := q
    have ha : a ≠ k := Nat.ne_of_lt (h (a, b) (List.mem_cons_self _ _))
    simp only [findVal, ha, if_false]
    exact ih (fun p hp => h p (List.mem_cons_of_mem _ hp))

theorem mem_updateDbGame_fst {db : List (Nat × DbGame)} {m : Nat} {l r : Int} {w : UserId}
    {p : Nat × DbGame} (hp : p ∈ updateDbGame db m l r w) : ∃ q ∈ db, q.1 = p.1 := by
  rcases List.mem_map.mp hp with ⟨q, hq, rfl⟩
  refine ⟨q, hq, ?_⟩
  by_cases hqm : q.1 = m <;> simp [hqm]

theorem findVal_updateDbGame_isSome (db : List (Nat × DbGame)) (m k : Nat) (l r : Int)
    (w : UserId) : (findVal (updateDbGame db m l r w) k).isSome = (findVal db k).isSome := by
  induction db with
  | nil => rfl
  | cons p t ih =>
    simp only [updateDbGame, List.map_cons] at *
    rw [findVal_cons, findVal_cons]
    by_cases hm : p.1 = m
    · rw [if_pos hm]
      by_cases hk : p.1 = k <;> simp [hk, ih]
    · rw [if_neg hm]
      by_cases hk : p.1 = k <;> simp [hk, ih]

theorem findVal_updateDbGame_self {db : List (Nat × DbGame)} {n : Nat} {q : DbGame}
    (l r : Int) (w : UserId) (h : findVal db n = some q) :
    findVal (updateDbGame db n l r w) n =
      some { q with player1Score := some l, player2Score := some r, winnerId := some w } := by
  induction db with
  | nil => simp [findVal] at h
  | cons p t ih =>
    rw [findVal_cons] at h
    simp only [updateDbGame, List.map_cons] at *
    by_cases han : p.1 = n
    · rw [if_pos han] at h
      cases h
      rw [findVal_cons]
      simp [han]
    · rw [if_neg han] at h
      rw [if_neg han, findVal_cons, if_neg han]
      exact ih h

theorem sendToUser_user_eq {cl : Clients} {t : UserId} {env : Envelope} {m : Sent}
    (h : m ∈ sendToUser cl t env) : m.user = t ∧ m.env = env := by
  unfold sendToUser at h
  split at h
  · rcases List.mem_map.mp h with ⟨c, _, rfl⟩
    exact ⟨rfl, rfl⟩
  · simp at h

theorem mem_sendToUser {cl : Clients} {t : UserId} {env : Envelope} {hs : List ConnId}
    {c : ConnId} (hfind : findVal cl t = some hs) (hc : c ∈ hs) :
    Sent.mk t c env ∈ sendToUser cl t env := by
  unfold sendToUser
  rw [hfind]
  exact List.mem_map.mpr ⟨c, hc, rfl⟩

/-! ## The reachability invariant: ids handed out so far are below the
counters, the database counter starts at 1, and every live session points
at an existing persisted row. -/

structure Inv (s : ServerState) : Prop where
  inviteIds : ∀ p ∈ s.activeInvites, p.1 < s.nextId
  gameIds : ∀ p ∈ s.activeGames, p.1 < s.nextId
  dbIds : ∀ p ∈ s.db, p.1 < s.nextDbId
  dbPos : 1 ≤ s.nextDbId
  gamesPersisted : ∀ p ∈ s.activeGames,
    ∃ n, p.2.dbGameId = some n ∧ n ≠ 0 ∧ (findVal s.db n).isSome = true

theorem inv_init : Inv initState := by
  refine ⟨?_, ?_, ?_, ?_, ?_⟩ <;> simp [initState]

theorem inv_step (s : ServerState) (e : Event) (h : Inv s) : Inv (step s e).1 := by
  cases e with
  | connect u c => exact ⟨h.inviteIds, h.gameIds, h.dbIds, h.dbPos, h.gamesPersisted⟩
  | disconnect u c => exact ⟨h.inviteIds, h.gameIds, h.dbIds, h.dbPos, h.gamesPersisted⟩
  | gameInvite f fname t =>
    simp only [step, handleGameInvite]
    split
    · exact h
    · refine ⟨?_, ?_, h.dbIds, h.dbPos, h.gamesPersisted⟩
      · intro p hp
        rcases List.mem_append.mp hp with hp | hp
        · exact Nat.lt_succ_of_lt (h.inviteIds p hp)
        · simp only [List.mem_singleton] at hp
          subst hp
          exact Nat.lt_succ_self _
      · intro p hp
        exact Nat.lt_succ_of_lt (h.gameIds p hp)
  | gameInviteAccept u id ok =>
    simp only [step, handleInviteAccept]
    split
    · exact h
    · split
      · split
        · refine ⟨?_, ?_, ?_, ?_, ?_⟩
          · intro p hp
            exact Nat.lt_succ_of_lt (h.inviteIds p (mem_eraseKey hp))
          · intro p hp
            rcases List.mem_append.mp hp with hp | hp
            · exact Nat.lt_succ_of_lt (h.gameIds p hp)
            · simp only [List.mem_singleton] at hp
              subst hp
              exact Nat.lt_succ_self _
          · intro p hp
            rcases List.mem_append.mp hp with hp | hp
            · exact Nat.lt_succ_of_lt (h.dbIds p hp)
            · simp only [List.mem_singleton] at hp
              subst hp
              exact Nat.lt_succ_self _
          · exact Nat.le_succ_of_le h.dbPos
          · intro p hp
            rcases List.mem_append.mp hp with hp | hp
            · obtain ⟨n, hn, hn0, hsome⟩ := h.gamesPersisted p hp
              obtain ⟨v, hv⟩ := Option.isSome_iff_exists.mp hsome
              exact ⟨n, hn, hn0, by rw [findVal_append_left _ hv]; rfl⟩
            · simp only [List.mem_singleton] at hp
              subst hp
              refine ⟨s.nextDbId, rfl, Nat.one_le_iff_ne_zero.mp h.dbPos, ?_⟩
              rw [findVal_append_right _ (findVal_none_of_lt h.dbIds)]
              simp [findVal]
        · exact ⟨fun p hp => h.inviteIds p (mem_eraseKey hp), h.gameIds, h.dbIds, h.dbPos,
            h.gamesPersisted⟩
      · exact h
  | gameInviteDecline u id =>
    simp only [step, handleInviteDecline]
    split
    · exact h
    · split
      · exact ⟨fun p hp => h.inviteIds p (mem_eraseKey hp), h.gameIds, h.dbIds, h.dbPos,
          h.gamesPersisted⟩
      · exact h
  | inviteTimerFire id f =>
    simp only [step]
    split
    · simp only [expireInvite]
      split
      · exact ⟨fun p hp => h.inviteIds p (mem_eraseKey hp), h.gameIds, h.dbIds, h.dbPos,
          h.gamesPersisted⟩
      · exact ⟨h.inviteIds, h.gameIds, h.dbIds, h.dbPos, h.gamesPersisted⟩
    · exact h
  | gamePaddleUpdate u gid y =>
    simp only [step, relayPaddleUpdate]
    split
    · exact h
    · exact h
  | gameState u gid st =>
    simp only [step, relayGameState]
    split
    · exact h
    · split
      · exact h
      · exact h
  | gameEnd u gid w lS rS =>
    rcases hfind : findVal s.activeGames gid with _ | g
    · simp only [step, handleGameEnd, hfind]
      exact h
    · rcases hdb : g.dbGameId with _ | dbId
      · simp only [step, handleGameEnd, hfind, hdb]
        exact ⟨h.inviteIds, fun p hp => h.gameIds p (mem_eraseKey hp), h.dbIds, h.dbPos,
          fun p hp => h.gamesPersisted p (mem_eraseKey hp)⟩
      · by_cases hz : dbId ≠ 0
        · simp only [step, handleGameEnd, hfind, hdb, if_pos hz]
          refine ⟨h.inviteIds, fun p hp => h.gameIds p (mem_eraseKey hp), ?_, h.dbPos, ?_⟩
          · intro p hp
            obtain ⟨q, hq, hfst⟩ := mem_updateDbGame_fst hp
            rw [← hfst]
            exact h.dbIds q hq
          · intro p hp
            obtain ⟨n, hn, hn0, hsome⟩ := h.gamesPersisted p (mem_eraseKey hp)
            exact ⟨n, hn, hn0, by rw [findVal_updateDbGame_isSome]; exact hsome⟩
        · simp only [step, handleGameEnd, hfind, hdb, if_neg hz]
          exact ⟨h.inviteIds, fun p hp => h.gameIds p (mem_eraseKey hp), h.dbIds, h.dbPos,
            fun p hp => h.gamesPersisted p (mem_eraseKey hp)⟩

theorem run_inv (s : ServerState) (es : List Event) (h : Inv s) : Inv (run s es).1 := by
  induction es generalizing s with
  | nil => exact h
  | cons e es ih =>
    show Inv (run (step s e).1 es).1
    exact ih _ (inv_step s e h)

theorem reachable_inv {s : ServerState} (h : Reachable s) : Inv s := by
  obtain ⟨es, rfl⟩ := h
  exact run_inv initState es inv_init

/-! ## Claim theorems -/

/-- Claim C9: `handleGameEnd` never looks at the sender — for any two
sender user ids (participant or not) it produces the same persisted
update, the same `game_ended` broadcasts and the same session removal. -/
theorem c9_game_end_sender_independent (s : ServerState) (gid : GameId) (w : UserId)
    (lS rS : Int) (u1 u2 : UserId) :
    handleGameEnd s u1 gid w lS rS = handleGameEnd s u2 gid w lS rS := rfl

/-- Claim C10: when the sender of a paddle update is neither the host nor
the guest of a known session, `relayPaddleUpdate` does not fail silently:
the `game_paddle_update` envelope goes to the session's host (the
recipient selection defaults to the host whenever the sender is not the
host), on every live handle of the host. -/
theorem c10_paddle_from_third_party_goes_to_host (s : ServerState) (u : UserId)
    (gid : GameId) (y : Int) (g : GameSession)
    (hg : findVal s.activeGames gid = some g) (h1 : u ≠ g.hostId) (h2 : u ≠ g.guestId) :
    (relayPaddleUpdate s u gid y).1 = s ∧
    (relayPaddleUpdate s u gid y).2 =
      sendToUser s.clients g.hostId (Envelope.gamePaddleUpdate gid y) ∧
    ∀ hs c, findVal s.clients g.hostId = some hs → c ∈ hs →
      Sent.mk g.hostId c (Envelope.gamePaddleUpdate gid y) ∈ (relayPaddleUpdate s u gid y).2 := by
  have htarget : (if g.hostId = u then g.guestId else g.hostId) = g.hostId :=
    if_neg (fun hh => h1 hh.symm)
  simp only [relayPaddleUpdate, hg, htarget]
  refine ⟨trivial, trivial, ?_⟩
  intro hs c hfind hc
  exact mem_sendToUser hfind hc

/-- Claim C10 witness: a bystander (user 9) sends a paddle update on
session 3 (host 5, guest 7); the update is forwarded to the host. -/
def c10WitState : ServerState :=
  { clients := [(5, [50]), (7, [70])], activeInvites := [],
    activeGames := [(3, (⟨3, 5, 7, some 1⟩ : GameSession))], timers := [],
    db := [(1, (⟨1, 5, 7, "online", none, none, none⟩ : DbGame))],
    nextId := 4, nextDbId := 2, now := 0 }

theorem c10_witness :
    (relayPaddleUpdate c10WitState 9 3 4).1 = c10WitState ∧
    (relayPaddleUpdate c10WitState 9 3 4).2 =
      sendToUser c10WitState.clients 5 (Envelope.gamePaddleUpdate 3 4) :=
  ⟨(c10_paddle_from_third_party_goes_to_host c10WitState 9 3 4 ⟨3, 5, 7, some 1⟩
      (by decide) (by decide) (by decide)).1,
    (c10_paddle_from_third_party_goes_to_host c10WitState 9 3 4 ⟨3, 5, 7, some 1⟩
      (by decide) (by decide) (by decide)).2.1⟩

/-- Claim C3 counterexample: via a self-invite, user 1 becomes both host
and guest of session 1; a `relayGameState` call by the host then delivers
the `game_state` envelope to a live connection of the host, refuting
"to no connection of the host". -/
def c3Events : List Event :=
  [Event.connect 1 10, Event.gameInvite 1 "a" 1, Event.gameInviteAccept 1 0 true,
    Event.gameState 1 1 "snapshot"]

theorem c3_counterexample :
    findVal (run initState c3Events).1.activeGames 1 =
      some { id := 1, hostId := 1, guestId := 1, dbGameId := some 1 } ∧
    Sent.mk 1 10 (Envelope.gameState 1 "snapshot") ∈ (run initState c3Events).2 := by
  decide

/-- Claim C3 (amended): for every `relayState` call, if the session id is
unknown or the caller is not the host, no envelope is sent and the state
is unchanged; if the caller is the host and the session's host and guest
are distinct, the `game_state` envelope reaches every live connection of
the guest and no connection of the host. -/
theorem c3_relay_state_host_authority (s : ServerState) (u : UserId) (gid : GameId)
    (st : String) :
    (findVal s.activeGames gid = none → relayGameState s u gid st = (s, [])) ∧
    (∀ g, findVal s.activeGames gid = some g → g.hostId ≠ u →
      relayGameState s u gid st = (s, [])) ∧
    (∀ g, findVal s.activeGames gid = some g → g.hostId = u → g.hostId ≠ g.guestId →
      (relayGameState s u gid st).1 = s ∧
      (relayGameState s u gid st).2 =
        sendToUser s.clients g.guestId (Envelope.gameState gid st) ∧
      (∀ hs c, findVal s.clients g.guestId = some hs → c ∈ hs →
        Sent.mk g.guestId c (Envelope.gameState gid st) ∈ (relayGameState s u gid st).2) ∧
      (∀ m ∈ (relayGameState s u gid st).2, m.user ≠ g.hostId)) := by
  refine ⟨?_, ?_, ?_⟩
  · intro hnone
    simp [relayGameState, hnone]
  · intro g hg hne
    simp [relayGameState, hg, hne]
  · intro g hg heq hne
    simp only [relayGameState, hg, if_pos heq]
    refine ⟨trivial, trivial, ?_, ?_⟩
    · intro hs c hf hc
      exact mem_sendToUser hf hc
    · intro m hm
      rw [(sendToUser_user_eq hm).1]
      exact fun hh => hne hh.symm

/-- Claim C3 witness: host 5 relays state on session 3 (guest 7, online on
handle 70): the guest's handle receives it and the state is unchanged. -/
theorem c3_witness :
    (relayGameState c10WitState 5 3 "x").1 = c10WitState ∧
    (relayGameState c10WitState 5 3 "x").2 =
      sendToUser c10WitState.clients 7 (Envelope.gameState 3 "x") := by
  have h := (c3_relay_state_host_authority c10WitState 5 3 "x").2.2 ⟨3, 5, 7, some 1⟩
    (by decide) (by decide) (by decide)
  exact ⟨h.1, h.2.1⟩

/-- Claim C7 counterexample: after a self-invite, user 1 is both host and
guest of session 1; a paddle update sent by user 1 is echoed back to both
of user 1's live handles, refuting "the sender never receives an echo". -/
def c7Events : List Event :=
  [Event.connect 1 10, Event.connect 1 11, Event.gameInvite 1 "a" 1,
    Event.gameInviteAccept 1 0 true, Event.gamePaddleUpdate 1 1 5]

theorem c7_counterexample :
    findVal (run initState c7Events).1.activeGames 1 =
      some { id := 1, hostId := 1, guestId := 1, dbGameId := some 1 } ∧
    Sent.mk 1 10 (Envelope.gamePaddleUpdate 1 5) ∈ (run initState c7Events).2 ∧
    Sent.mk 1 11 (Envelope.gamePaddleUpdate 1 5) ∈ (run initState c7Events).2 := by
  decide

/-- Claim C7 (amended): on a known session whose host and guest are
distinct, `relayPaddleUpdate` forwards the envelope only to the selected
other participant (the guest when the sender is the host, otherwise the
host), and the sender never receives an echo on any of its handles. -/
theorem c7_paddle_no_echo (s : ServerState) (u : UserId) (gid : GameId) (y : Int)
    (g : GameSession) (hg : findVal s.activeGames gid = some g)
    (hne : g.hostId ≠ g.guestId) :
    (relayPaddleUpdate s u gid y).1 = s ∧
    (relayPaddleUpdate s u gid y).2 =
      sendToUser s.clients (if g.hostId = u then g.guestId else g.hostId)
        (Envelope.gamePaddleUpdate gid y) ∧
    ∀ m ∈ (relayPaddleUpdate s u gid y).2, m.user ≠ u := by
  simp only [relayPaddleUpdate, hg]
  refine ⟨trivial, trivial, ?_⟩
  intro m hm
  rw [(sendToUser_user_eq hm).1]
  by_cases hh : g.hostId = u
  · rw [if_pos hh]
    intro hgu
    exact hne (by rw [hh, hgu])
  · rw [if_neg hh]
    exact hh

/-- Claim C7 witness: host 5 sends a paddle update on session 3; it is
delivered to guest 7 only. -/
theorem c7_witness :
    (relayPaddleUpdate c10WitState 5 3 9).1 = c10WitState ∧
    (relayPaddleUpdate c10WitState 5 3 9).2 =
      sendToUser c10WitState.clients (if (5 : Nat) = 5 then 7 else 5)
        (Envelope.gamePaddleUpdate 3 9) := by
  have h := c7_paddle_no_echo c10WitState 5 3 9 ⟨3, 5, 7, some 1⟩ (by decide) (by decide)
  exact ⟨h.1, h.2.1⟩

/-- Claim C8: inviting an offline user sends `game_invite_error` with
reason "User is not online" to the inviter, stores no invite, sends
nothing to the target and schedules no expiry timer; inviting an online
user stores a pending invite, delivers `game_invite` to every handle of
the invitee, `game_invite_sent` to every handle of the inviter, and
schedules the expiry timer. -/
theorem c8_invite_creation (s : ServerState) (f : UserId) (fname : String) (t : UserId) :
    (findVal s.clients t = none →
      (handleGameInvite s f fname t).1 = s ∧
      (handleGameInvite s f fname t).2 =
        sendToUser s.clients f (Envelope.gameInviteError "User is not online") ∧
      (∀ m ∈ (handleGameInvite s f fname t).2, m.user ≠ t) ∧
      (∀ hs c, findVal s.clients f = some hs → c ∈ hs →
        Sent.mk f c (Envelope.gameInviteError "User is not online") ∈
          (handleGameInvite s f fname t).2)) ∧
    (∀ hs, findVal s.clients t = some hs →
      (handleGameInvite s f fname t).1.activeInvites =
        s.activeInvites ++ [(s.nextId, ⟨s.nextId, f, fname, t, s.now⟩)] ∧
      (handleGameInvite s f fname t).1.timers = s.timers ++ [(s.nextId, f)] ∧
      (∀ c ∈ hs, Sent.mk t c (Envelope.gameInvite s.nextId f fname s.now) ∈
        (handleGameInvite s f fname t).2) ∧
      (∀ hs2 c, findVal s.clients f = some hs2 → c ∈ hs2 →
        Sent.mk f c (Envelope.gameInviteSent s.nextId t) ∈
          (handleGameInvite s f fname t).2)) := by
  constructor
  · intro hnone
    simp only [handleGameInvite, hnone]
    refine ⟨trivial, trivial, ?_, ?_⟩
    · intro m hm
      rw [(sendToUser_user_eq hm).1]
      intro hft
      subst hft
      simp [sendToUser, hnone] at hm
    · intro hs c hf hc
      exact mem_sendToUser hf hc
  · intro hs hsome
    simp only [handleGameInvite, hsome]
    refine ⟨trivial, trivial, ?_, ?_⟩
    · intro c hc
      exact List.mem_append_left _ (mem_sendToUser hsome hc)
    · intro hs2 c hf hc
      exact List.mem_append_right _ (mem_sendToUser hf hc)

/-- Claim C8 witness: user 5 invites offline user 9 (error to the
inviter, nothing stored) and online user 7 (invite stored and both
notifications delivered). -/
theorem c8_witness :
    (handleGameInvite c10WitState 5 "five" 9).1 = c10WitState ∧
    (handleGameInvite c10WitState 5 "seven" 7).1.activeInvites =
      c10WitState.activeInvites ++
        [(c10WitState.nextId, ⟨c10WitState.nextId, 5, "seven", 7, c10WitState.now⟩)] := by
  refine ⟨((c8_invite_creation c10WitState 5 "five" 9).1 (by decide)).1, ?_⟩
  exact ((c8_invite_creation c10WitState 5 "seven" 7).2 [70] (by decide)).1

/-- Claim C6 counterexample: user 2 invites user 1; user 1 accepts but the
persistence call throws.  Afterwards no session exists in memory (and no
persisted record either) — the in-memory session insert happens after the
persistence call, not before it; only the invite removal survives. -/
def c6Events : List Event :=
  [Event.connect 1 10, Event.connect 2 20, Event.gameInvite 2 "b" 1,
    Event.gameInviteAccept 1 0 false]

theorem c6_counterexample :
    (run initState c6Events).1.activeGames = [] ∧
    (run initState c6Events).1.db = [] ∧
    (run initState c6Events).1.activeInvites = [] := by
  decide

/-- Claim C6 (amended): when the persistence gateway call made during
invite accept throws, the invite removal is not rolled back (the invite
stays consumed and nobody is notified), but no session is inserted into
the live table and no persisted record exists: the in-memory insert
happens after the persistence call. -/
theorem c6_accept_gateway_failure (s : ServerState) (u : UserId) (id : InviteId)
    (inv : Invite) (hinv : findVal s.activeInvites id = some inv)
    (hto : inv.toUserId = u) :
    handleInviteAccept s u id false =
      ({ s with activeInvites := eraseKey s.activeInvites id }, []) := by
  simp [handleInviteAccept, hinv, hto]

/-- Claim C6 witness: concrete failing accept at the state reached by
`c6Events` without its last event. -/
def c6WitState : ServerState :=
  (run initState [Event.connect 1 10, Event.connect 2 20, Event.gameInvite 2 "b" 1]).1

theorem c6_witness :
    handleInviteAccept c6WitState 1 0 false =
      ({ c6WitState with activeInvites := eraseKey c6WitState.activeInvites 0 }, []) :=
  c6_accept_gateway_failure c6WitState 1 0 ⟨0, 2, "b", 1, 0⟩ (by decide) (by decide)

/-- Claim C1: accepting a pending invite addressed to the accepting user
removes the invite, creates a persisted match record with the inviter as
player1, the acceptor as player2 and mode "online", stores an in-memory
session under a fresh session id with host = inviter and guest = acceptor,
and delivers `game_invite_accepted` envelopes carrying the same session id
to every live handle of both parties, `is_host = true` for the inviter and
`is_host = false` for the acceptor. -/
theorem c1_accept_creates_session (s : ServerState) (u : UserId) (id : InviteId)
    (inv : Invite) (hreach : Reachable s)
    (hinv : findVal s.activeInvites id = some inv) (hto : inv.toUserId = u) :
    (handleInviteAccept s u id true).1.activeInvites = eraseKey s.activeInvites id ∧
    findVal (handleInviteAccept s u id true).1.db s.nextDbId =
      some ⟨s.nextDbId, inv.fromUserId, u, "online", none, none, none⟩ ∧
    findVal s.activeGames s.nextId = none ∧
    findVal (handleInviteAccept s u id true).1.activeGames s.nextId =
      some ⟨s.nextId, inv.fromUserId, u, some s.nextDbId⟩ ∧
    (handleInviteAccept s u id true).2 =
      sendToUser s.clients inv.fromUserId
          (Envelope.gameInviteAccepted s.nextId s.nextDbId u true) ++
        sendToUser s.clients u
          (Envelope.gameInviteAccepted s.nextId s.nextDbId inv.fromUserId false) ∧
    (∀ hs c, findVal s.clients inv.fromUserId = some hs → c ∈ hs →
      Sent.mk inv.fromUserId c (Envelope.gameInviteAccepted s.nextId s.nextDbId u true) ∈
        (handleInviteAccept s u id true).2) ∧
    (∀ hs c, findVal s.clients u = some hs → c ∈ hs →
      Sent.mk u c (Envelope.gameInviteAccepted s.nextId s.nextDbId inv.fromUserId false) ∈
        (handleInviteAccept s u id true).2) := by
  have hI := reachable_inv hreach
  have hgfresh : findVal s.activeGames s.nextId = none := findVal_none_of_lt hI.gameIds
  have hdbfresh : findVal s.db s.nextDbId = none := findVal_none_of_lt hI.dbIds
  simp only [handleInviteAccept, hinv, if_pos hto, if_true]
  refine ⟨trivial, ?_, hgfresh, ?_, trivial, ?_, ?_⟩
  · rw [findVal_append_right _ hdbfresh, findVal_cons, if_pos rfl]
  · rw [findVal_append_right _ hgfresh, findVal_cons, if_pos rfl]
  · intro hs c hf hc
    exact List.mem_append_left _ (mem_sendToUser hf hc)
  · intro hs c hf hc
    exact List.mem_append_right _ (mem_sendToUser hf hc)

/-- Claim C1 witness: at the state reached after user 1 invites user 2,
user 2 accepts; the delivered envelopes carry the same session id with
complementary roles. -/
def c1Events : List Event :=
  [Event.connect 1 10, Event.connect 2 20, Event.gameInvite 1 "alice" 2]

def c1WitState : ServerState := (run initState c1Events).1

theorem c1_witness :
    findVal c1WitState.activeInvites 0 = some ⟨0, 1, "alice", 2, 0⟩ ∧
    (handleInviteAccept c1WitState 2 0 true).2 =
      sendToUser c1WitState.clients 1
          (Envelope.gameInviteAccepted c1WitState.nextId c1WitState.nextDbId 2 true) ++
        sendToUser c1WitState.clients 2
          (Envelope.gameInviteAccepted c1WitState.nextId c1WitState.nextDbId 1 false) := by
  refine ⟨by decide, ?_⟩
  exact (c1_accept_creates_session c1WitState 2 0 ⟨0, 1, "alice", 2, 0⟩ ⟨c1Events, rfl⟩
    (by decide) (by decide)).2.2.2.2.1

/-- Claim C5 counterexample: user 1 invites themself and accepts their own
invite; the live session table then holds a session whose host equals its
guest, refuting "a session always binds exactly two distinct users". -/
def c5Events : List Event :=
  [Event.connect 1 10, Event.gameInvite 1 "a" 1, Event.gameInviteAccept 1 0 true]

theorem c5_counterexample :
    ((run initState c5Events).1.activeGames.any (fun p => p.2.hostId == p.2.guestId)) = true := by
  decide

/-- Self-invites are the only way to break host/guest distinctness. -/
def noSelfInvite : Event → Bool
  | .gameInvite f _ t => f != t
  | _ => true

/-- Invites and sessions both bind distinct parties. -/
def PartiesDistinct (s : ServerState) : Prop :=
  (∀ p ∈ s.activeInvites, p.2.fromUserId ≠ p.2.toUserId) ∧
  (∀ p ∈ s.activeGames, p.2.hostId ≠ p.2.guestId)

theorem partiesDistinct_step {s : ServerState} {e : Event} (h : PartiesDistinct s)
    (he : noSelfInvite e = true) : PartiesDistinct (step s e).1 := by
  obtain ⟨hi, hg⟩ := h
  cases e with
  | connect u c => exact ⟨hi, hg⟩
  | disconnect u c => exact ⟨hi, hg⟩
  | gameInvite f fname t =>
    simp only [noSelfInvite, bne_iff_ne, ne_eq] at he
    simp only [step, handleGameInvite]
    split
    · exact ⟨hi, hg⟩
    · refine ⟨?_, hg⟩
      intro p hp
      rcases List.mem_append.mp hp with hp | hp
      · exact hi p hp
      · simp only [List.mem_singleton] at hp
        subst hp
        exact he
  | gameInviteAccept u id ok =>
    simp only [step, handleInviteAccept]
    split
    · exact ⟨hi, hg⟩
    · next inv hfind =>
      split
      · next hto =>
        split
        · refine ⟨fun p hp => hi p (mem_eraseKey hp), ?_⟩
          intro p hp
          rcases List.mem_append.mp hp with hp | hp
          · exact hg p hp
          · simp only [List.mem_singleton] at hp
            subst hp
            have hne := hi (id, inv) (findVal_mem hfind)
            rw [← hto]
            exact hne
        · exact ⟨fun p hp => hi p (mem_eraseKey hp), hg⟩
      · exact ⟨hi, hg⟩
  | gameInviteDecline u id =>
    simp only [step, handleInviteDecline]
    split
    · exact ⟨hi, hg⟩
    · split
      · exact ⟨fun p hp => hi p (mem_eraseKey hp), hg⟩
      · exact ⟨hi, hg⟩
  | inviteTimerFire id f =>
    simp only [step]
    split
    · simp only [expireInvite]
      split
      · exact ⟨fun p hp => hi p (mem_eraseKey hp), hg⟩
      · exact ⟨hi, hg⟩
    · exact ⟨hi, hg⟩
  | gamePaddleUpdate u gid y =>
    simp only [step, relayPaddleUpdate]
    split
    · exact ⟨hi, hg⟩
    · exact ⟨hi, hg⟩
  | gameState u gid st =>
    simp only [step, relayGameState]
    split
    · exact ⟨hi, hg⟩
    · split
      · exact ⟨hi, hg⟩
      · exact ⟨hi, hg⟩
  | gameEnd u gid w lS rS =>
    rcases hfind : findVal s.activeGames gid with _ | g
    · simp only [step, handleGameEnd, hfind]
      exact ⟨hi, hg⟩
    · simp only [step, handleGameEnd, hfind]
      exact ⟨hi, fun p hp => hg p (mem_eraseKey hp)⟩

theorem run_partiesDistinct (s : ServerState) (es : List Event) :
    PartiesDistinct s → (∀ e ∈ es, noSelfInvite e = true) →
    PartiesDistinct (run s es).1 := by
  induction es generalizing s with
  | nil => exact fun h _ => h
  | cons e es ih =>
    intro h he
    show PartiesDistinct (run (step s e).1 es).1
    exact ih _ (partiesDistinct_step h (he e (List.mem_cons_self _ _)))
      (fun e' he' => he e' (List.mem_cons_of_mem _ he'))

/-- Claim C5 (amended): a session binds a host and a guest fixed at
creation, and every session in the live table of a reachable state has
host distinct from guest provided no user ever invites themself;
distinctness is not enforced against self-invites (see the
counterexample). -/
theorem c5_sessions_distinct (es : List Event) (he : ∀ e ∈ es, noSelfInvite e = true) :
    ∀ p ∈ (run initState es).1.activeGames, p.2.hostId ≠ p.2.guestId :=
  (run_partiesDistinct initState es
    ⟨fun p hp => absurd hp (List.not_mem_nil p), fun p hp => absurd hp (List.not_mem_nil p)⟩
    he).2

/-- Claim C5 witness: in the trace where user 1 invites user 2 (distinct)
and user 2 accepts, the created session has host 1 distinct from
guest 2. -/
def c5WitEvents : List Event :=
  [Event.connect 1 10, Event.connect 2 20, Event.gameInvite 1 "a" 2,
    Event.gameInviteAccept 2 0 true]

theorem c5_witness :
    (GameSession.mk 1 1 2 (some 1)).hostId ≠ (GameSession.mk 1 1 2 (some 1)).guestId :=
  c5_sessions_distinct c5WitEvents (by decide) (1, ⟨1, 1, 2, some 1⟩) (by decide)

/-- Once an invite id has left the table (and is below the id counter), a
single step keeps it out, keeps the counter above it, and emits no
`game_invite_expired` envelope for it. -/
theorem gone_step (s : ServerState) (e : Event) (id : InviteId)
    (h1 : findVal s.activeInvites id = none) (h2 : id < s.nextId) :
    findVal (step s e).1.activeInvites id = none ∧
    id < (step s e).1.nextId ∧
    ∀ m ∈ (step s e).2, m.env ≠ Envelope.gameInviteExpired id := by
  cases e with
  | connect u c => exact ⟨h1, h2, fun m hm => absurd hm (List.not_mem_nil m)⟩
  | disconnect u c => exact ⟨h1, h2, fun m hm => absurd hm (List.not_mem_nil m)⟩
  | gameInvite f fname t =>
    simp only [step, handleGameInvite]
    split
    · refine ⟨h1, h2, ?_⟩
      intro m hm
      rw [(sendToUser_user_eq hm).2]
      simp
    · refine ⟨?_, Nat.lt_succ_of_lt h2, ?_⟩
      · rw [findVal_append_right _ h1, findVal_cons, if_neg (Ne.symm (Nat.ne_of_lt h2))]
        rfl
      · intro m hm
        rcases List.mem_append.mp hm with hm | hm
        · rw [(sendToUser_user_eq hm).2]
          simp
        · rw [(sendToUser_user_eq hm).2]
          simp
  | gameInviteAccept u id' ok =>
    by_cases hii : id' = id
    · subst hii
      simp only [step, handleInviteAccept, h1]
      refine ⟨trivial, h2, ?_⟩
      intro m hm
      rw [(sendToUser_user_eq hm).2]
      simp
    · rcases hfind : findVal s.activeInvites id' with _ | inv
      · simp only [step, handleInviteAccept, hfind]
        refine ⟨h1, h2, ?_⟩
        intro m hm
        rw [(sendToUser_user_eq hm).2]
        simp
      · simp only [step, handleInviteAccept, hfind]
        by_cases hto : inv.toUserId = u
        · rw [if_pos hto]
          cases ok with
          | false =>
            rw [if_neg Bool.false_ne_true]
            refine ⟨?_, h2, fun m hm => absurd hm (List.not_mem_nil m)⟩
            rw [findVal_eraseKey_ne _ (fun hh => hii hh.symm)]
            exact h1
          | true =>
            rw [if_pos rfl]
            refine ⟨?_, Nat.lt_succ_of_lt h2, ?_⟩
            · rw [findVal_eraseKey_ne _ (fun hh => hii hh.symm)]
              exact h1
            · intro m hm
              rcases List.mem_append.mp hm with hm | hm
              · rw [(sendToUser_user_eq hm).2]
                simp
              · rw [(sendToUser_user_eq hm).2]
                simp
        · rw [if_neg hto]
          refine ⟨h1, h2, ?_⟩
          intro m hm
          rw [(sendToUser_user_eq hm).2]
          simp
  | gameInviteDecline u id' =>
    by_cases hii : id' = id
    · subst hii
      simp only [step, handleInviteDecline, h1]
      exact ⟨trivial, h2, fun m hm => absurd hm (List.not_mem_nil m)⟩
    · rcases hfind : findVal s.activeInvites id' with _ | inv
      · simp only [step, handleInviteDecline, hfind]
        exact ⟨h1, h2, fun m hm => absurd hm (List.not_mem_nil m)⟩
      · simp only [step, handleInviteDecline, hfind]
        by_cases hto : inv.toUserId = u
        · rw [if_pos hto]
          refine ⟨?_, h2, ?_⟩
          · rw [findVal_eraseKey_ne _ (fun hh => hii hh.symm)]
            exact h1
          · intro m hm
            rw [(sendToUser_user_eq hm).2]
            simp
        · rw [if_neg hto]
          exact ⟨h1, h2, fun m hm => absurd hm (List.not_mem_nil m)⟩
  | inviteTimerFire id' f =>
    simp only [step]
    split
    · by_cases hii : id' = id
      · subst hii
        simp only [expireInvite, h1, Option.isSome_none, Bool.false_eq_true, if_false]
        exact ⟨trivial, h2, fun m hm => absurd hm (List.not_mem_nil m)⟩
      · rcases hf2 : findVal s.activeInvites id' with _ | inv
        · simp only [expireInvite, hf2, Option.isSome_none, Bool.false_eq_true, if_false]
          exact ⟨h1, h2, fun m hm => absurd hm (List.not_mem_nil m)⟩
        · simp only [expireInvite, hf2, Option.isSome_some, if_true]
          refine ⟨?_, h2, ?_⟩
          · rw [findVal_eraseKey_ne _ (fun hh => hii hh.symm)]
            exact h1
          · intro m hm
            rw [(sendToUser_user_eq hm).2]
            simp only [ne_eq, Envelope.gameInviteExpired.injEq]
            exact hii
    · exact ⟨h1, h2, fun m hm => absurd hm (List.not_mem_nil m)⟩
  | gamePaddleUpdate u gid y =>
    rcases hf : findVal s.activeGames gid with _ | g
    · simp only [step, relayPaddleUpdate, hf]
      exact ⟨h1, h2, fun m hm => absurd hm (List.not_mem_nil m)⟩
    · simp only [step, relayPaddleUpdate, hf]
      refine ⟨h1, h2, ?_⟩
      intro m hm
      rw [(sendToUser_user_eq hm).2]
      simp
  | gameState u gid st =>
    rcases hf : findVal s.activeGames gid with _ | g
    · simp only [step, relayGameState, hf]
      exact ⟨h1, h2, fun m hm => absurd hm (List.not_mem_nil m)⟩
    · simp only [step, relayGameState, hf]
      by_cases hh : g.hostId = u
      · rw [if_pos hh]
        refine ⟨h1, h2, ?_⟩
        intro m hm
        rw [(sendToUser_user_eq hm).2]
        simp
      · rw [if_neg hh]
        exact ⟨h1, h2, fun m hm => absurd hm (List.not_mem_nil m)⟩
  | gameEnd u gid w lS rS =>
    rcases hf : findVal s.activeGames gid with _ | g
    · simp only [step, handleGameEnd, hf]
      exact ⟨h1, h2, fun m hm => absurd hm (List.not_mem_nil m)⟩
    · simp only [step, handleGameEnd, hf]
      refine ⟨h1, h2, ?_⟩
      intro m hm
      rcases List.mem_append.mp hm with hm | hm
      · rw [(sendToUser_user_eq hm).2]
        simp
      · rw [(sendToUser_user_eq hm).2]
        simp

/-- `gone_step` extended along an arbitrary event list. -/
theorem gone_run (s : ServerState) (es : List Event) (id : InviteId) :
    findVal s.activeInvites id = none → id < s.nextId →
    findVal (run s es).1.activeInvites id = none ∧ id < (run s es).1.nextId ∧
      ∀ m ∈ (run s es).2, m.env ≠ Envelope.gameInviteExpired id := by
  induction es generalizing s with
  | nil => exact fun h1 h2 => ⟨h1, h2, fun m hm => absurd hm (List.not_mem_nil m)⟩
  | cons e es ih =>
    intro h1 h2
    obtain ⟨g1, g2, g3⟩ := gone_step s e id h1 h2
    obtain ⟨r1, r2, r3⟩ := ih (step s e).1 g1 g2
    refine ⟨r1, r2, ?_⟩
    intro m hm
    have hm' : m ∈ (step s e).2 ++ (run (step s e).1 es).2 := hm
    rcases List.mem_append.mp hm' with hmm | hmm
    · exact g3 m hmm
    · exact r3 m hmm

/-- Claim C2: the transition of an invite out of pending happens at most
once.  Once an invite id is out of the table (below the id counter, as
every allocated id is), it stays out along any further event list; every
later accept of it only sends the "Invite not found or expired" error and
changes nothing (in particular no session is created for it), every later
decline is a no-op, the expiry callback does nothing, and no
`game_invite_expired` envelope for it is ever emitted.  Conversely a
successful accept, a decline and an expiry each remove the invite from
the table. -/
theorem c2_resolution_at_most_once (s : ServerState) (id : InviteId)
    (h1 : findVal s.activeInvites id = none) (h2 : id < s.nextId) :
    (∀ es u ok,
      (handleInviteAccept (run s es).1 u id ok).1 = (run s es).1 ∧
      (handleInviteAccept (run s es).1 u id ok).2 =
        sendToUser (run s es).1.clients u
          (Envelope.gameInviteError "Invite not found or expired")) ∧
    (∀ es u, handleInviteDecline (run s es).1 u id = ((run s es).1, [])) ∧
    (∀ es f, expireInvite (run s es).1 id f = ((run s es).1, [])) ∧
    (∀ es, findVal (run s es).1.activeInvites id = none) ∧
    (∀ es, ∀ m ∈ (run s es).2, m.env ≠ Envelope.gameInviteExpired id) ∧
    (∀ (s₀ : ServerState) (inv : Invite), findVal s₀.activeInvites id = some inv →
      findVal (handleInviteAccept s₀ inv.toUserId id true).1.activeInvites id = none ∧
      findVal (handleInviteDecline s₀ inv.toUserId id).1.activeInvites id = none ∧
      findVal (expireInvite s₀ id inv.fromUserId).1.activeInvites id = none) := by
  refine ⟨?_, ?_, ?_, fun es => (gone_run s es id h1 h2).1,
    fun es => (gone_run s es id h1 h2).2.2, ?_⟩
  · intro es u ok
    have hg := (gone_run s es id h1 h2).1
    simp [handleInviteAccept, hg]
  · intro es u
    have hg := (gone_run s es id h1 h2).1
    simp [handleInviteDecline, hg]
  · intro es f
    have hg := (gone_run s es id h1 h2).1
    simp [expireInvite, hg]
  · intro s₀ inv hfind
    refine ⟨?_, ?_, ?_⟩
    · simp [handleInviteAccept, hfind, findVal_eraseKey_self]
    · simp [handleInviteDecline, hfind, findVal_eraseKey_self]
    · simp [expireInvite, hfind, findVal_eraseKey_self]

/-- Claim C2 witness: after invite 0 (user 1 to user 2) is successfully
accepted, a later decline and a later expiry callback on id 0 are
no-ops. -/
def c2WitState : ServerState :=
  (run initState [Event.connect 1 10, Event.connect 2 20, Event.gameInvite 1 "a" 2,
    Event.gameInviteAccept 2 0 true]).1

theorem c2_witness :
    findVal c2WitState.activeInvites 0 = none ∧ 0 < c2WitState.nextId ∧
    handleInviteDecline (run c2WitState []).1 2 0 = ((run c2WitState []).1, []) ∧
    expireInvite (run c2WitState []).1 0 1 = ((run c2WitState []).1, []) :=
  ⟨by decide, by decide,
    (c2_resolution_at_most_once c2WitState 0 (by decide) (by decide)).2.1 [] 2,
    (c2_resolution_at_most_once c2WitState 0 (by decide) (by decide)).2.2.1 [] 1⟩

/-- Claim C4: ending an unknown session does nothing; ending a live
session of a reachable state updates its persisted row with the given
scores and winner, broadcasts one identical `game_ended` envelope to the
host and to the guest, removes the session from the live table, and makes
the session id invalid for every subsequent `relayPaddle`, `relayState`
and `end` call. -/
theorem c4_game_end (s : ServerState) (gid : GameId) (g : GameSession) (n : Nat)
    (u w : UserId) (lS rS : Int) (hreach : Reachable s)
    (hg : findVal s.activeGames gid = some g) (hdb : g.dbGameId = some n) :
    (findVal (handleGameEnd s u gid w lS rS).1.db n).map
        (fun q => (q.player1Score, q.player2Score, q.winnerId)) =
      some (some lS, some rS, some w) ∧
    (handleGameEnd s u gid w lS rS).2 =
      sendToUser s.clients g.hostId (Envelope.gameEnded gid w lS rS) ++
        sendToUser s.clients g.guestId (Envelope.gameEnded gid w lS rS) ∧
    findVal (handleGameEnd s u gid w lS rS).1.activeGames gid = none ∧
    (∀ u2 y, relayPaddleUpdate (handleGameEnd s u gid w lS rS).1 u2 gid y =
      ((handleGameEnd s u gid w lS rS).1, [])) ∧
    (∀ u2 st2, relayGameState (handleGameEnd s u gid w lS rS).1 u2 gid st2 =
      ((handleGameEnd s u gid w lS rS).1, [])) ∧
    (∀ u2 w2 lS2 rS2, handleGameEnd (handleGameEnd s u gid w lS rS).1 u2 gid w2 lS2 rS2 =
      ((handleGameEnd s u gid w lS rS).1, [])) ∧
    (∀ s₀ : ServerState, findVal s₀.activeGames gid = none →
      handleGameEnd s₀ u gid w lS rS = (s₀, [])) := by
  have hI := reachable_inv hreach
  obtain ⟨n', hn', hn0, hsome⟩ := hI.gamesPersisted (gid, g) (findVal_mem hg)
  rw [hdb] at hn'
  cases hn'
  obtain ⟨q, hq⟩ := Option.isSome_iff_exists.mp hsome
  simp only [handleGameEnd, hg, hdb, if_pos hn0]
  refine ⟨?_, trivial, findVal_eraseKey_self _ _, ?_, ?_, ?_, ?_⟩
  · rw [findVal_updateDbGame_self lS rS w hq]
    rfl
  · intro u2 y
    simp [relayPaddleUpdate, findVal_eraseKey_self]
  · intro u2 st2
    simp [relayGameState, findVal_eraseKey_self]
  · intro u2 w2 lS2 rS2
    simp [handleGameEnd, findVal_eraseKey_self]
  · intro s₀ h0
    simp [handleGameEnd, h0]

/-- Claim C4 witness: scenario D — the session created by an accepted
invite ends with winner 1, scores 11:7; the persisted row reflects the
scores and winner, and the session id is gone from the live table. -/
def c4Events : List Event :=
  [Event.connect 1 10, Event.connect 2 20, Event.gameInvite 1 "a" 2,
    Event.gameInviteAccept 2 0 true]

def c4WitState : ServerState := (run initState c4Events).1

theorem c4_witness :
    (findVal (handleGameEnd c4WitState 1 1 1 11 7).1.db 1).map
        (fun q => (q.player1Score, q.player2Score, q.winnerId)) =
      some (some 11, some 7, some 1) ∧
    findVal (handleGameEnd c4WitState 1 1 1 11 7).1.activeGames 1 = none := by
  have h := c4_game_end c4WitState 1 ⟨1, 1, 2, some 1⟩ 1 1 1 11 7 ⟨c4Events, rfl⟩
    (by decide) (by decide)
  exact ⟨h.1, h.2.2.1⟩

end Transcendence
